import Mathlib

/-!
# Verification of the slowmatch MWPM decoder core

Shallow embedding of the parts of `Strilanc/slowmatch` that the frozen claims
are about, together with theorems settling each claim.

Conventions used throughout:
* Python object identity (`is`) on detector nodes, regions and events is
  modelled by giving each object a natural-number identifier; `a is b`
  becomes equality of identifiers.
* Python numbers (`int`, `float`) are modelled as `ℚ` where fractional
  values can occur (times, radii) and as `ℕ` where the source only ever
  holds non-negative integers (distances, observable masks, ids).
* Python code that can raise (`assert`, `raise`, attribute access on `None`,
  `next` on an empty generator, indexing out of range) is modelled as
  `Option`/`Except`-returning functions; `none`/`.error` is the raising
  branch.
-/

/-! ## `slowmatch/varying.py`

`Varying` is a value varying linearly over time: it stores a base value, the
time at which that base was sampled, and a slope.  `__call__` evaluates it at
a time. -/

/-- Embeds the `Varying` class of `varying.py`: fields `_base`, `_base_time`
and `slope`. -/
structure Varying where
  base : ℚ
  base_time : ℚ
  slope : ℚ
  deriving Repr, DecidableEq

namespace Varying

/-- `Varying.__call__`: `self._base + (time - self._base_time) * self.slope`. -/
def eval (f : Varying) (time : ℚ) : ℚ :=
  f.base + (time - f.base_time) * f.slope

/-- `Varying.T = Varying(slope=1)`: base 0, base time 0, slope 1. -/
def T : Varying := ⟨0, 0, 1⟩

/-- `Varying.then_slope_at`:
`Varying(base_time=time_of_change, base=self(time_of_change), slope=new_slope)`. -/
def then_slope_at (f : Varying) (time_of_change : ℚ) (new_slope : ℚ) : Varying :=
  ⟨f.eval time_of_change, time_of_change, new_slope⟩

/-- `Varying.zero_intercept`: `None` when the slope is zero, else
`self._base_time - self._base / self.slope`. -/
def zero_intercept (f : Varying) : Option ℚ :=
  if f.slope = 0 then none else some (f.base_time - f.base / f.slope)

end Varying

/-! ## `slowmatch/compressed_edge.py`

A `CompressedEdge` summarizes a path through the detector graph by its two
endpoints (either may be the boundary, i.e. `None`), the xor of the
observable masks crossed, and the total distance.  Detector nodes are
identified by their object identity, modelled as `ℕ`. -/

/-- Embeds the `CompressedEdge` dataclass of `compressed_edge.py`.  `loc_from`
and `loc_to` hold detector-node identities (`none` = boundary). -/
structure CompressedEdge where
  loc_from : Option ℕ
  loc_to : Option ℕ
  obs_mask : ℕ
  distance : ℕ
  deriving Repr, DecidableEq

namespace CompressedEdge

/-- `CompressedEdge.reversed`: swap the endpoints, keep mask and distance. -/
def reversed (e : CompressedEdge) : CompressedEdge :=
  ⟨e.loc_to, e.loc_from, e.obs_mask, e.distance⟩

/-- `CompressedEdge.merged_with`: raises `ValueError` unless
`self.loc_to is other.loc_from`; otherwise builds the edge from
`self.loc_from` to `other.loc_to` with xored masks and summed distances. -/
def merged_with (e other : CompressedEdge) : Except String CompressedEdge :=
  if e.loc_to = other.loc_from then
    .ok ⟨e.loc_from, other.loc_to, e.obs_mask ^^^ other.obs_mask,
         e.distance + other.distance⟩
  else
    .error "self.loc_to must be other.loc_from to merge self with other"

end CompressedEdge

/-! ## Claim theorems: C9 and C6 -/

/-- C9: For every Varying `f`, every time `t`, and every slope `s`, the
Varying returned by `f.then_slope_at(time_of_change=t, new_slope=s)`
evaluates at `t` to the same value as `f(t)`, and has slope `s`. -/
theorem c9_then_slope_at_preserves_value (f : Varying) (t s : ℚ) :
    (f.then_slope_at t s).eval t = f.eval t ∧ (f.then_slope_at t s).slope = s := by
  constructor
  · simp [Varying.then_slope_at, Varying.eval]
  · rfl

/-- C6: `CompressedEdge.merged_with(a, b)` raises an error exactly when
`a.loc_to` is not `b.loc_from`; when `a.loc_to` is `b.loc_from` it returns
the CompressedEdge with `loc_from = a.loc_from`, `loc_to = b.loc_to`,
`obs_mask = a.obs_mask xor b.obs_mask`, `distance = a.distance + b.distance`
(the inputs, being values of a pure function, are unchanged). -/
theorem c6_merged_with_spec (a b : CompressedEdge) :
    ((∃ msg, a.merged_with b = .error msg) ↔ a.loc_to ≠ b.loc_from) ∧
    (a.loc_to = b.loc_from →
      a.merged_with b =
        .ok ⟨a.loc_from, b.loc_to, a.obs_mask ^^^ b.obs_mask,
             a.distance + b.distance⟩) := by
  constructor
  · constructor
    · rintro ⟨msg, hmsg⟩ hEq
      simp [CompressedEdge.merged_with, hEq] at hmsg
    · intro hne
      refine ⟨"self.loc_to must be other.loc_from to merge self with other", ?_⟩
      simp [CompressedEdge.merged_with, hne]
  · intro hEq
    simp [CompressedEdge.merged_with, hEq]

/-- Witness for C6 at concrete edges: merging `0 →(3,5)→ 1` with
`1 →(6,7)→ 2` succeeds and produces `0 →(3 xor 6, 12)→ 2`; the error case is
exercised by the iff at edges whose endpoints do not meet. -/
theorem c6_merged_with_spec_witness :
    ((CompressedEdge.mk (some 0) (some 1) 3 5).merged_with
        ⟨some 1, some 2, 6, 7⟩ =
      .ok ⟨some 0, some 2, 3 ^^^ 6, 5 + 7⟩) ∧
    (∃ msg, (CompressedEdge.mk (some 0) (some 1) 3 5).merged_with
        ⟨some 9, some 2, 6, 7⟩ = .error msg) := by
  constructor
  · exact (c6_merged_with_spec ⟨some 0, some 1, 3, 5⟩ ⟨some 1, some 2, 6, 7⟩).2 rfl
  · exact (c6_merged_with_spec ⟨some 0, some 1, 3, 5⟩ ⟨some 9, some 2, 6, 7⟩).1.2
      (by decide)

/-! ## `slowmatch/graph_fill_region.py`: matches

For claim C10 only the `match`, `alt_tree_node` fields and the `add_match`
method matter.  `GraphFillRegion` objects are mutable and aliased in Python,
so regions are kept in a store indexed by region identity (`ℕ`) and
`add_match` is a store transformer. -/

/-- Embeds the `Match` dataclass of `graph_fill_region.py`: an optional peer
region (by identity; `none` = matched to boundary) and the compressed edge
to it. -/
structure RegionMatch where
  region : Option ℕ
  edge : CompressedEdge
  deriving Repr, DecidableEq

/-- The mutable per-region state that `GraphFillRegion.add_match` touches:
the `match` field and the `alt_tree_node` back-reference (tree nodes are
identified by `ℕ`). -/
structure RegionMatchState where
  mtch : Option RegionMatch
  alt_tree_node : Option ℕ
  deriving Repr, DecidableEq

/-- A store of `GraphFillRegion` objects, indexed by object identity. -/
def RegionStore : Type := ℕ → RegionMatchState

/-- Embeds `GraphFillRegion.add_match(self, match, edge)` acting on the
store, where `self` and `match` are region identities:
`self.match = Match(region=match, edge=edge)`;
`match.match = Match(region=self, edge=edge.reversed())`;
`self.alt_tree_node = None`; `match.alt_tree_node = None`. -/
def addMatch (s : RegionStore) (self mtch : ℕ) (edge : CompressedEdge) :
    RegionStore :=
  let s1 : RegionStore :=
    Function.update s self { s self with mtch := some ⟨some mtch, edge⟩ }
  let s2 : RegionStore :=
    Function.update s1 mtch { s1 mtch with mtch := some ⟨some self, edge.reversed⟩ }
  let s3 : RegionStore :=
    Function.update s2 self { s2 self with alt_tree_node := none }
  Function.update s3 mtch { s3 mtch with alt_tree_node := none }

/-- C10: After `r1.add_match(match=r2, edge=e)` on any two distinct regions,
`r1.match.region` is `r2` with `r1.match.edge = e`, `r2.match.region` is
`r1` with `r2.match.edge = e.reversed()`, and both `r1.alt_tree_node` and
`r2.alt_tree_node` are `None`. -/
theorem c10_add_match_symmetric (s : RegionStore) (r1 r2 : ℕ)
    (e : CompressedEdge) (hne : r1 ≠ r2) :
    (addMatch s r1 r2 e r1).mtch = some ⟨some r2, e⟩ ∧
    (addMatch s r1 r2 e r2).mtch = some ⟨some r1, e.reversed⟩ ∧
    (addMatch s r1 r2 e r1).alt_tree_node = none ∧
    (addMatch s r1 r2 e r2).alt_tree_node = none := by
  refine ⟨?_, ?_, ?_, ?_⟩ <;>
    simp [addMatch, Function.update, hne, hne.symm]

/-- Witness for C10 at a concrete store and concrete regions 0 and 1. -/
theorem c10_add_match_symmetric_witness :
    (addMatch (fun _ => ⟨none, some 5⟩) 0 1 ⟨some 7, some 8, 3, 4⟩ 0).mtch =
        some ⟨some 1, ⟨some 7, some 8, 3, 4⟩⟩ ∧
    (addMatch (fun _ => ⟨none, some 5⟩) 0 1 ⟨some 7, some 8, 3, 4⟩ 1).mtch =
        some ⟨some 0, ⟨some 8, some 7, 3, 4⟩⟩ ∧
    (addMatch (fun _ => ⟨none, some 5⟩) 0 1 ⟨some 7, some 8, 3, 4⟩ 0).alt_tree_node
        = none ∧
    (addMatch (fun _ => ⟨none, some 5⟩) 0 1 ⟨some 7, some 8, 3, 4⟩ 1).alt_tree_node
        = none :=
  c10_add_match_symmetric (fun _ => ⟨none, some 5⟩) 0 1 ⟨some 7, some 8, 3, 4⟩
    (by decide)

/-! ## `slowmatch/events.py` and `slowmatch/graph_flooder.py`: event ordering

Two generations of `TentativeEvent` exist in the source.  The one in
`events.py` carries `time` and `event_id` and its `__lt__` compares
`self.time < other.time` only.  The one in `graph_flooder.py` additionally
carries a `kind` string and its `__lt__` compares the tuples
`(self.time, self.kind) < (other.time, other.kind)`. -/

/-- Embeds the ordering-relevant fields of `events.TentativeEvent`. -/
structure EventsTentativeEvent where
  time : ℚ
  event_id : ℕ
  deriving Repr, DecidableEq

/-- `events.TentativeEvent.__lt__`: `self.time < other.time`. -/
def eventsLt (e other : EventsTentativeEvent) : Prop :=
  e.time < other.time

instance : DecidablePred fun p : EventsTentativeEvent × EventsTentativeEvent =>
    eventsLt p.1 p.2 := fun p => inferInstanceAs (Decidable (p.1.time < p.2.time))

/-- Embeds the ordering-relevant fields of
`graph_flooder.TentativeEvent` (`kind`, `time`, `event_id`). -/
structure FlooderTentativeEvent where
  kind : String
  time : ℚ
  event_id : ℕ
  deriving Repr, DecidableEq

/-- `graph_flooder.TentativeEvent.__lt__`:
`(self.time, self.kind) < (other.time, other.kind)` — Python tuple order,
lexicographic with string comparison on `kind`. -/
def flooderLt (e other : FlooderTentativeEvent) : Prop :=
  e.time < other.time ∨ (e.time = other.time ∧ e.kind < other.kind)

/-- C4 counterexample: two tentative events with identical firing time 0 and
event ids 0 and 1 are not ordered at all by either `__lt__` (neither
compares less than the other), so the ordering is not by the monotonically
increasing event sequence id; this holds for the `events.py` relation and
for the `graph_flooder.py` relation at equal kinds alike. -/
theorem c4_counterexample_equal_times_unordered :
    (¬ eventsLt ⟨0, 0⟩ ⟨0, 1⟩) ∧ (¬ eventsLt ⟨0, 1⟩ ⟨0, 0⟩) ∧
    (EventsTentativeEvent.mk 0 0).event_id ≠ (EventsTentativeEvent.mk 0 1).event_id ∧
    (¬ flooderLt ⟨"1_neighbor_interaction", 0, 0⟩ ⟨"1_neighbor_interaction", 0, 1⟩) ∧
    (¬ flooderLt ⟨"1_neighbor_interaction", 0, 1⟩ ⟨"1_neighbor_interaction", 0, 0⟩) := by
  refine ⟨?_, ?_, ?_, ?_, ?_⟩
  · simp [eventsLt]
  · simp [eventsLt]
  · decide
  · rintro (h | ⟨-, h⟩)
    · exact absurd h (by norm_num)
    · exact absurd h (lt_irrefl _)
  · rintro (h | ⟨-, h⟩)
    · exact absurd h (by norm_num)
    · exact absurd h (lt_irrefl _)

/-- C4 amended: the heap ordering relations never consult the event sequence
id: `events.TentativeEvent.__lt__` compares firing times only, so two events
with identical times are mutually unordered, and
`graph_flooder.TentativeEvent.__lt__` compares `(time, kind)`, so two events
with identical times and kinds are mutually unordered; consequently
equal-time events are not popped in insertion-id order by virtue of the
comparison. -/
theorem c4_lt_ignores_event_id :
    (∀ e1 e2 : EventsTentativeEvent, e1.time = e2.time →
      ¬ eventsLt e1 e2 ∧ ¬ eventsLt e2 e1) ∧
    (∀ e1 e2 : FlooderTentativeEvent, e1.time = e2.time → e1.kind = e2.kind →
      ¬ flooderLt e1 e2 ∧ ¬ flooderLt e2 e1) ∧
    (∀ (e1 e2 : EventsTentativeEvent) (x y : ℕ),
      eventsLt e1 e2 ↔ eventsLt ⟨e1.time, x⟩ ⟨e2.time, y⟩) := by
  refine ⟨?_, ?_, ?_⟩
  · intro e1 e2 ht
    constructor
    · intro h; simp only [eventsLt, ht] at h; exact absurd h (lt_irrefl _)
    · intro h; simp only [eventsLt, ht] at h; exact absurd h (lt_irrefl _)
  · intro e1 e2 ht hk
    constructor
    · rintro (h | ⟨-, h⟩)
      · rw [ht] at h; exact absurd h (lt_irrefl _)
      · rw [hk] at h; exact absurd h (lt_irrefl _)
    · rintro (h | ⟨-, h⟩)
      · rw [ht] at h; exact absurd h (lt_irrefl _)
      · rw [hk] at h; exact absurd h (lt_irrefl _)
  · intro e1 e2 x y
    exact Iff.rfl

/-- Witness for C4 amended: at the concrete equal-time events of ids 0 and 1
neither relation holds in either direction, and the events relation is
unchanged by rewriting the ids. -/
theorem c4_lt_ignores_event_id_witness :
    (¬ eventsLt ⟨3, 0⟩ ⟨3, 1⟩ ∧ ¬ eventsLt ⟨3, 1⟩ ⟨3, 0⟩) ∧
    (¬ flooderLt ⟨"2_implosion", 3, 0⟩ ⟨"2_implosion", 3, 1⟩ ∧
      ¬ flooderLt ⟨"2_implosion", 3, 1⟩ ⟨"2_implosion", 3, 0⟩) ∧
    (eventsLt ⟨1, 0⟩ ⟨2, 0⟩ ↔ eventsLt ⟨1, 99⟩ ⟨2, 100⟩) :=
  ⟨c4_lt_ignores_event_id.1 ⟨3, 0⟩ ⟨3, 1⟩ rfl,
   c4_lt_ignores_event_id.2.1 ⟨"2_implosion", 3, 0⟩ ⟨"2_implosion", 3, 1⟩ rfl rfl,
   c4_lt_ignores_event_id.2.2 ⟨1, 0⟩ ⟨2, 0⟩ 99 100⟩

/-! ## `slowmatch/graph_flooder.py`: `GraphFlooder.create_region`

The flooder cited by claim C7 is the one defined in `graph_flooder.py`.  Its
`create_region` allocates the next region id, constructs
`GraphFillRegion(id=k, source=location)` — whose `radius` defaults to
`Varying.T` — and calls `_do_region_arriving_at_empty_location`, which adds
the location to the region's `area` (and schedules tentative events, which
never write the region's `radius` and are not modelled here). -/

/-- Embeds the `GraphFillRegion` class defined inside `graph_flooder.py`
(fields `id`, `source`, `area`, `radius`, `blossom_children`; the
`schedule_map` of tentative events is not modelled).  The default `radius`
argument of `__init__` is `Varying.T`. -/
structure FlooderRegion where
  id : ℕ
  source : Option ℕ
  area : List ℕ
  radius : Varying
  blossom_children : Option (List ℕ)
  deriving Repr, DecidableEq

/-- The `GraphFlooder` state touched by `create_region`: current time,
next region id, and the region data map. -/
structure FlooderState where
  time : ℚ
  next_region_id : ℕ
  region_data_map : List (ℕ × FlooderRegion)
  deriving Repr, DecidableEq

/-- Python-dict assignment `m[k] = v`: replace in place when the key exists,
otherwise append (dicts preserve insertion order). -/
def dictInsert {α : Type} (m : List (ℕ × α)) (k : ℕ) (v : α) : List (ℕ × α) :=
  if (m.lookup k).isSome then
    m.map (fun p => if p.1 = k then (k, v) else p)
  else m ++ [(k, v)]

/-- Embeds `GraphFlooder.create_region`:
`k = self._next_region_id; self._next_region_id += 1;`
`self._region_data_map[k] = GraphFillRegion(id=k, source=location)` (radius
defaulting to `Varying.T`), then `_do_region_arriving_at_empty_location`
adds the location to the region's area.  Returns the new state and `k`. -/
def createRegion (f : FlooderState) (location : ℕ) : FlooderState × ℕ :=
  let k := f.next_region_id
  let region : FlooderRegion :=
    ⟨k, some location, [location], Varying.T, none⟩
  (⟨f.time, k + 1, dictInsert f.region_data_map k region⟩, k)

/-- C7 (code bug, failing input): a flooder whose current time is 5 calls
`create_region`; the created region's radius is `Varying.T`, which evaluates
to 5 — not 0 — at the flooder's current time (its slope is +1 as claimed).
This contradicts the `Flooder.create_region` contract in `flooder.py`
("Creates a new zero-radius region") and the claim; `create_blossom` in the
same file, by contrast, anchors the new radius at `self.time`. -/
theorem c7_create_region_radius_at_time_5 :
    ((createRegion ⟨5, 0, []⟩ 42).1.region_data_map.lookup 0
        = some ⟨0, some 42, [42], Varying.T, none⟩) ∧
    Varying.T.eval 5 = 5 ∧ (5 : ℚ) ≠ 0 ∧ Varying.T.slope = 1 := by
  refine ⟨rfl, ?_, by norm_num, rfl⟩
  norm_num [Varying.eval, Varying.T]

/-! ## `slowmatch/graph.py`: graph construction and `num_observables`

`Graph` holds a dict of `LocationData` nodes (location keys modelled as
`ℕ`) and a `num_observables` counter.  `add_edge` appends a slot to the
parallel adjacency arrays of both endpoints and raises `num_observables` to
the binary-digit count of the edge's observables mask if larger.
`add_boundary_edge` appends a slot whose neighbor is `None` (plus, when a
demo boundary node is supplied, a mirror slot on that node); it never
touches `num_observables`. -/

/-- Embeds `graph.LocationData`'s build-time fields: the parallel adjacency
arrays (the dynamic discovery fields are not touched by graph
construction).  `schedule_list` entries hold tentative-event identities. -/
structure GLocationData where
  loc : ℕ
  neighbors : List (Option ℕ)
  neighbors_with_boundary : List (Option ℕ)
  distances : List ℕ
  observables : List ℕ
  schedule_list : List (Option ℕ)
  neighbor_index : List (Option ℕ)
  deriving Repr, DecidableEq

/-- A fresh `LocationData(loc=u)`: empty adjacency arrays. -/
def freshLoc (u : ℕ) : GLocationData := ⟨u, [], [], [], [], [], []⟩

/-- Embeds `graph.Graph`: insertion-ordered node dict plus the
`num_observables` counter. -/
structure PyGraph where
  nodes : List (ℕ × GLocationData)
  num_observables : ℕ
  deriving Repr, DecidableEq

/-- `if u not in self.nodes: self.nodes[u] = LocationData(loc=u)`. -/
def ensureNode (m : List (ℕ × GLocationData)) (u : ℕ) :
    List (ℕ × GLocationData) :=
  if (m.lookup u).isSome then m else m ++ [(u, freshLoc u)]

/-- Apply an in-place mutation to the node stored at key `k`. -/
def mutNode (m : List (ℕ × GLocationData)) (k : ℕ)
    (f : GLocationData → GLocationData) : List (ℕ × GLocationData) :=
  m.map (fun p => if p.1 = k then (p.1, f p.2) else p)

/-- Fuel-driven binary digit counter: `bitLen n` is the bit length of `n`
(`0` for `0`), computed structurally so that concrete instances evaluate. -/
def bitLenAux (fuel n : ℕ) : ℕ :=
  match fuel with
  | 0 => 0
  | f + 1 => if n = 0 then 0 else bitLenAux f (n / 2) + 1

/-- The bit length of a natural number (`int.bit_length` in Python). -/
def bitLen (n : ℕ) : ℕ := bitLenAux n n

/-- `len(bin(observables)[:1:-1])`: the number of binary digits of
`observables`, which is 1 (not 0) when the mask is 0, else the bit length. -/
def numObsBits (observables : ℕ) : ℕ :=
  if observables = 0 then 1 else bitLen observables

/-- Embeds `Graph.add_edge(u, v, weight, observables)`.  The appends happen
in source order; the value recorded in `udata.neighbor_index` is
`len(vdata.neighbors)` read after `udata`'s appends (which matters when
`u == v`), and the one in `vdata.neighbor_index` is
`len(udata.neighbors) - 1` read after `vdata`'s appends. -/
def addEdge (g : PyGraph) (u v weight observables : ℕ) : PyGraph :=
  let m1 := ensureNode (ensureNode g.nodes u) v
  let m2 := mutNode m1 u (fun d =>
    { d with
      neighbors := d.neighbors ++ [some v]
      neighbors_with_boundary := d.neighbors_with_boundary ++ [some v]
      distances := d.distances ++ [weight]
      observables := d.observables ++ [observables]
      schedule_list := d.schedule_list ++ [none] })
  let vLen := ((m2.lookup v).map (fun d => d.neighbors.length)).getD 0
  let m3 := mutNode m2 u (fun d =>
    { d with neighbor_index := d.neighbor_index ++ [some vLen] })
  let m4 := mutNode m3 v (fun d =>
    { d with
      neighbors := d.neighbors ++ [some u]
      neighbors_with_boundary := d.neighbors_with_boundary ++ [some u]
      distances := d.distances ++ [weight]
      observables := d.observables ++ [observables]
      schedule_list := d.schedule_list ++ [none] })
  let uLen := ((m4.lookup u).map (fun d => d.neighbors.length)).getD 0
  let m5 := mutNode m4 v (fun d =>
    { d with neighbor_index := d.neighbor_index ++ [some (uLen - 1)] })
  { nodes := m5
    num_observables :=
      if numObsBits observables > g.num_observables then numObsBits observables
      else g.num_observables }

/-- Embeds `Graph.add_boundary_edge(u, weight, observables, boundary_node)`.
The `u` side records neighbor `None`; when a demo `boundary_node` is given a
mirror slot is appended to it.  `num_observables` is not updated. -/
def addBoundaryEdge (g : PyGraph) (u weight observables : ℕ)
    (boundary_node : Option ℕ) : PyGraph :=
  let m1 := ensureNode g.nodes u
  let m2 := match boundary_node with
    | some b => ensureNode m1 b
    | none => m1
  let m3 := mutNode m2 u (fun d =>
    { d with
      neighbors := d.neighbors ++ [none]
      neighbors_with_boundary := d.neighbors_with_boundary ++ [boundary_node]
      distances := d.distances ++ [weight]
      observables := d.observables ++ [observables]
      schedule_list := d.schedule_list ++ [none] })
  let vind : Option ℕ := match boundary_node with
    | some b => some (((m3.lookup b).map (fun d => d.neighbors.length)).getD 0)
    | none => none
  let m4 := mutNode m3 u (fun d =>
    { d with neighbor_index := d.neighbor_index ++ [vind] })
  let m5 := match boundary_node with
    | some b =>
      let m4b := mutNode m4 b (fun d =>
        { d with
          neighbors := d.neighbors ++ [some u]
          neighbors_with_boundary := d.neighbors_with_boundary ++ [some u] })
      let uLen := ((m4b.lookup u).map (fun d => d.neighbors.length)).getD 0
      mutNode m4b b (fun d =>
        { d with
          neighbor_index := d.neighbor_index ++ [some (uLen - 1)]
          distances := d.distances ++ [weight]
          observables := d.observables ++ [observables]
          schedule_list := d.schedule_list ++ [none] })
    | none => m4
  { nodes := m5, num_observables := g.num_observables }

/-- The empty `Graph()`. -/
def emptyPyGraph : PyGraph := ⟨[], 0⟩

/-- A graph-construction call, for quantifying over call sequences. -/
inductive GraphOp : Type
  | addEdgeOp (u v weight observables : ℕ)
  | addBoundaryEdgeOp (u weight observables : ℕ) (boundary_node : Option ℕ)
  deriving Repr, DecidableEq

/-- Apply one construction call. -/
def applyGraphOp (g : PyGraph) : GraphOp → PyGraph
  | .addEdgeOp u v w o => addEdge g u v w o
  | .addBoundaryEdgeOp u w o b => addBoundaryEdge g u w o b

/-- Apply a sequence of construction calls in order. -/
def applyGraphOps (ops : List GraphOp) (g : PyGraph) : PyGraph :=
  ops.foldl applyGraphOp g

/-- The maximum, over every edge slot stored anywhere in the graph
(boundary slots included), of the bit length of that slot's observables
mask.  Interior edges contribute the same mask at both endpoints, which
does not change the maximum. -/
def graphMaxObsBitLen (g : PyGraph) : ℕ :=
  ((g.nodes.map (fun p => p.2.observables)).flatten.map bitLen).foldr max 0

/-- The masks passed to the `add_edge` calls of a call sequence. -/
def addEdgeMasks (ops : List GraphOp) : List ℕ :=
  ops.filterMap (fun op => match op with
    | .addEdgeOp _ _ _ o => some o
    | .addBoundaryEdgeOp _ _ _ _ => none)

/-- C8 counterexample: starting from an empty graph, a single
`add_boundary_edge(u=0, weight=1, observables=1)` call stores a boundary
edge whose mask has bit length 1, yet leaves `num_observables` at 0, so
`num_observables` is not the maximum bit length over every edge including
boundary edges. -/
theorem c8_counterexample_boundary_edge_ignored :
    (applyGraphOps [.addBoundaryEdgeOp 0 1 1 none] emptyPyGraph).num_observables
        = 0 ∧
    graphMaxObsBitLen (applyGraphOps [.addBoundaryEdgeOp 0 1 1 none] emptyPyGraph)
        = 1 ∧
    (applyGraphOps [.addBoundaryEdgeOp 0 1 1 none] emptyPyGraph).num_observables
      ≠ graphMaxObsBitLen
          (applyGraphOps [.addBoundaryEdgeOp 0 1 1 none] emptyPyGraph) := by
  refine ⟨rfl, ?_, ?_⟩ <;> decide

/-- `add_edge` raises `num_observables` to
`max(old, numObsBits observables)`. -/
theorem addEdge_num_observables (g : PyGraph) (u v w o : ℕ) :
    (addEdge g u v w o).num_observables
      = max g.num_observables (numObsBits o) := by
  simp only [addEdge]
  rcases Nat.lt_or_ge g.num_observables (numObsBits o) with h | h
  · simp [h, Nat.max_eq_right h.le]
  · simp [Nat.not_lt.mpr h, Nat.max_eq_left h]

/-- `add_boundary_edge` leaves `num_observables` unchanged. -/
theorem addBoundaryEdge_num_observables (g : PyGraph) (u w o : ℕ)
    (b : Option ℕ) :
    (addBoundaryEdge g u w o b).num_observables = g.num_observables := rfl

/-- Auxiliary accumulator form of the C8 amendment. -/
theorem applyGraphOps_num_observables (ops : List GraphOp) (g : PyGraph) :
    (applyGraphOps ops g).num_observables
      = (addEdgeMasks ops).foldl (fun a o => max a (numObsBits o))
          g.num_observables := by
  induction ops generalizing g with
  | nil => rfl
  | cons op rest ih =>
    cases op with
    | addEdgeOp u v w o =>
      show (applyGraphOps rest (addEdge g u v w o)).num_observables = _
      rw [ih]
      simp [addEdgeMasks, List.filterMap_cons, addEdge_num_observables]
    | addBoundaryEdgeOp u w o b =>
      show (applyGraphOps rest (addBoundaryEdge g u w o b)).num_observables = _
      rw [ih]
      simp [addEdgeMasks, List.filterMap_cons, addBoundaryEdge_num_observables]

/-- C8 amended: after any sequence of `add_edge` and `add_boundary_edge`
calls on a fresh graph, `num_observables` equals the maximum over the
`add_edge` calls only (boundary edges are ignored) of the binary digit
count of the call's observables mask — where the digit count of mask 0 is
1, not 0. -/
theorem c8_num_observables_from_add_edge_only (ops : List GraphOp) :
    (applyGraphOps ops emptyPyGraph).num_observables
      = (addEdgeMasks ops).foldl (fun a o => max a (numObsBits o)) 0 :=
  applyGraphOps_num_observables ops emptyPyGraph

/-! ## `slowmatch/events.py`: tentative-event invalidation

`TentativeNeighborInteractionEvent.invalidate` sets the invalidated flag,
asserts that each referenced `schedule_list` slot still holds the event
(`is self`), and clears it.  `TentativeRegionShrinkEvent.invalidate` is
guarded by the flag; when not yet invalidated it asserts
`region.shrink_event is self` and sets the flag, leaving the slot in place.
Detector nodes are a store `ℕ → schedule_list`; events are referenced in
slots by their `event_id`. -/

/-- The schedule lists of all detector nodes, indexed by node identity.
Each slot holds the identity of the tentative event scheduled there. -/
def NodeSlots : Type := ℕ → List (Option ℕ)

/-- Embeds `events.TentativeNeighborInteractionEvent` (nodes by identity). -/
structure NeighborEvent where
  time : ℚ
  event_id : ℕ
  location_data_1 : ℕ
  schedule_list_index_1 : ℕ
  location_data_2 : Option ℕ
  schedule_list_index_2 : Option ℕ
  is_invalidated : Bool
  deriving Repr, DecidableEq

/-- Embeds `TentativeNeighborInteractionEvent.invalidate`:
set `is_invalidated`; assert slot 1 `is self` and clear it; when
`schedule_list_index_2` is present, assert slot 2 `is self` and clear it.
A failing `assert`, an out-of-range index, or a `None` `location_data_2`
raises. -/
def clearSlot (nodes : NodeSlots) (l : ℕ) (i : ℕ) : NodeSlots :=
  Function.update nodes l ((nodes l).set i none)

/-- Embeds `TentativeNeighborInteractionEvent.invalidate` continued; see
the section comment.  `clearSlot` performs
`location_data.schedule_list[index] = None`. -/
def invalidateNeighbor (nodes : NodeSlots) (ev : NeighborEvent) :
    Except String (NodeSlots × NeighborEvent) :=
  match (nodes ev.location_data_1).get? ev.schedule_list_index_1 with
  | none => .error "IndexError: schedule_list index 1 out of range"
  | some slot1 =>
    if slot1 ≠ some ev.event_id then
      .error "AssertionError: schedule_list slot 1 is not self"
    else
      match ev.schedule_list_index_2 with
      | none =>
        .ok (clearSlot nodes ev.location_data_1 ev.schedule_list_index_1,
             { ev with is_invalidated := true })
      | some i2 =>
        match ev.location_data_2 with
        | none => .error "AttributeError: location_data_2 is None"
        | some l2 =>
          match ((clearSlot nodes ev.location_data_1
              ev.schedule_list_index_1) l2).get? i2 with
          | none => .error "IndexError: schedule_list index 2 out of range"
          | some slot2 =>
            if slot2 ≠ some ev.event_id then
              .error "AssertionError: schedule_list slot 2 is not self"
            else
              .ok (clearSlot (clearSlot nodes ev.location_data_1
                     ev.schedule_list_index_1) l2 i2,
                   { ev with is_invalidated := true })

/-- Embeds `events.TentativeRegionShrinkEvent` (the `region` reference is
supplied separately as the region's shrink slot). -/
structure ShrinkEvent where
  time : ℚ
  event_id : ℕ
  is_invalidated : Bool
  deriving Repr, DecidableEq

/-- The `shrink_event` slot of a `GraphFillRegion`. -/
structure RegionShrinkSlot where
  shrink_event : Option ℕ
  deriving Repr, DecidableEq

/-- Embeds `TentativeRegionShrinkEvent.invalidate`:
`if not self.is_invalidated: assert self.region.shrink_event is self;`
`self.is_invalidated = True`.  The slot is left untouched. -/
def invalidateShrink (r : RegionShrinkSlot) (ev : ShrinkEvent) :
    Except String (RegionShrinkSlot × ShrinkEvent) :=
  if ev.is_invalidated then .ok (r, ev)
  else if r.shrink_event = some ev.event_id then
    .ok (r, { ev with is_invalidated := true })
  else .error "AssertionError: region.shrink_event is not self"

/-- Clearing one slot of a schedule list never disturbs a slot already
cleared. -/
theorem get?_set_none_keep (l : List (Option ℕ)) (i j : ℕ)
    (h : l.get? i = some none) : (l.set j none).get? i = some none := by
  rcases eq_or_ne j i with rfl | hne
  · have hlt : j < l.length := by
      by_contra hge
      rw [List.get?_eq_none.mpr (Nat.le_of_not_lt hge)] at h
      exact Option.noConfusion h
    rw [List.get?_set_eq_of_lt _ hlt]
  · rw [List.get?_set_ne _ _ hne]
    exact h

/-- C5 counterexample: with node 0 holding the single schedule slot
`[event 7]` and tentative neighbor-interaction event 7 referencing that
slot (no second slot), the first `invalidate()` succeeds but the second
raises an assertion error, so invalidation of neighbor-interaction events
is not idempotent; and region-shrink invalidation leaves the region's
shrink slot pointing at the event rather than clearing it. -/
theorem c5_counterexample_invalidate :
    (((invalidateNeighbor (fun _ => [some 7]) ⟨0, 7, 0, 0, none, none, false⟩).bind
        fun p => invalidateNeighbor p.1 p.2)
      = .error "AssertionError: schedule_list slot 1 is not self") ∧
    (invalidateShrink ⟨some 3⟩ ⟨0, 3, false⟩
      = .ok (⟨some 3⟩, ⟨0, 3, true⟩)) ∧
    (RegionShrinkSlot.mk (some 3)).shrink_event ≠ none := by
  refine ⟨?_, rfl, by decide⟩
  rfl

/-- C5 amended: `TentativeNeighborInteractionEvent.invalidate`, when it
succeeds, clears every schedule-list slot that pointed to the event and
marks it invalidated, but it is not idempotent (a second call fails its
assertion, as the counterexample shows); `TentativeRegionShrinkEvent.invalidate`
is idempotent — a successful call is absorbed by a repeat call — but does
not clear the region's shrink slot, which still points at the event (the
callers clear it themselves). -/
theorem c5_invalidate_clears_vs_idempotent :
    (∀ (nodes : NodeSlots) (ev : NeighborEvent) out,
      invalidateNeighbor nodes ev = .ok out →
        (out.1 ev.location_data_1).get? ev.schedule_list_index_1 = some none ∧
        (∀ l2 i2, ev.location_data_2 = some l2 →
          ev.schedule_list_index_2 = some i2 →
            (out.1 l2).get? i2 = some none) ∧
        out.2.is_invalidated = true) ∧
    (∀ (r : RegionShrinkSlot) (ev : ShrinkEvent) out,
      invalidateShrink r ev = .ok out →
        invalidateShrink out.1 out.2 = .ok out ∧
        out.1.shrink_event = r.shrink_event) := by
  constructor
  · intro nodes ev out h
    unfold invalidateNeighbor at h
    split at h
    · exact Except.noConfusion h
    next slot1 hg1 =>
      split at h
      · exact Except.noConfusion h
      next hs1 =>
        rw [not_not] at hs1
        have hlt1 : ev.schedule_list_index_1 < (nodes ev.location_data_1).length :=
          (List.get?_eq_some.mp hg1).1
        split at h
        next hi2 =>
          cases h
          refine ⟨?_, ?_, rfl⟩
          · simp only [clearSlot, Function.update_same]
            exact List.get?_set_eq_of_lt _ hlt1
          · intro l2 i2 _ hcontra
            rw [hi2] at hcontra
            exact Option.noConfusion hcontra
        next i2 hi2 =>
          split at h
          · exact Except.noConfusion h
          next l2 hl2 =>
            split at h
            · exact Except.noConfusion h
            next slot2 hg2 =>
              split at h
              · exact Except.noConfusion h
              next hs2 =>
                cases h
                have hlt2 : i2 <
                    ((clearSlot nodes ev.location_data_1
                      ev.schedule_list_index_1) l2).length :=
                  (List.get?_eq_some.mp hg2).1
                refine ⟨?_, ?_, rfl⟩
                · rcases eq_or_ne l2 ev.location_data_1 with rfl | hne
                  · simp only [clearSlot, Function.update_same]
                    apply get?_set_none_keep
                    exact List.get?_set_eq_of_lt _ hlt1
                  · simp only [clearSlot, Function.update_noteq (Ne.symm hne),
                      Function.update_same]
                    exact List.get?_set_eq_of_lt _ hlt1
                · intro l2' i2' hl2' hi2'
                  rw [hl2] at hl2'
                  rw [hi2] at hi2'
                  cases hl2'
                  cases hi2'
                  simp only [clearSlot, Function.update_same]
                  simp only [clearSlot] at hlt2
                  exact List.get?_set_eq_of_lt _ hlt2
  · intro r ev out h
    unfold invalidateShrink at h ⊢
    by_cases hinv : ev.is_invalidated
    · simp only [hinv, if_true] at h
      cases h
      simp [hinv]
    · simp only [hinv, if_false, Bool.false_eq_true] at h
      by_cases hslot : r.shrink_event = some ev.event_id
      · rw [if_pos hslot] at h
        cases h
        simp
      · rw [if_neg hslot] at h
        exact Except.noConfusion h

/-- Witness for C5 amended, applying both halves at concrete inputs: a
successful neighbor invalidation with two slots on nodes 0 and 1 clears
both slots, and a successful shrink invalidation absorbs a repeat call and
keeps the slot. -/
theorem c5_invalidate_clears_vs_idempotent_witness :
    (∀ out, invalidateNeighbor
        (fun n => if n = 0 then [some 7, none] else [none, some 7])
        ⟨0, 7, 0, 0, some 1, some 1, false⟩ = .ok out →
      (out.1 0).get? 0 = some none ∧
      (∀ l2 i2, (some 1 : Option ℕ) = some l2 → (some 1 : Option ℕ) = some i2 →
        (out.1 l2).get? i2 = some none) ∧
      out.2.is_invalidated = true) ∧
    (∀ out, invalidateShrink ⟨some 3⟩ ⟨0, 3, false⟩ = .ok out →
      invalidateShrink out.1 out.2 = .ok out ∧
      out.1.shrink_event = some 3) :=
  ⟨fun out h =>
      c5_invalidate_clears_vs_idempotent.1
        (fun n => if n = 0 then [some 7, none] else [none, some 7])
        ⟨0, 7, 0, 0, some 1, some 1, false⟩ out h,
   fun out h =>
      c5_invalidate_clears_vs_idempotent.2 ⟨some 3⟩ ⟨0, 3, false⟩ out h⟩

/-! ## `slowmatch/mwpm.py`: `Mwpm.extract_matching_and_reset_graph`

The extraction loop walks the recorded detection events; for each one whose
node still has a top-level region it asserts that region is matched, then
iterates the regions produced by `r.to_subblossom_matches()` (a recursive,
state-mutating blossom shattering) and, per produced region `m`, appends
`m.match.edge` to the match list while xoring `obs_mask` with the edge's
mask and adding the edge's distance to `total_weight`.  Claim C2 concerns
only this accumulation, which holds for arbitrary behaviour of
`top_region`/`to_subblossom_matches`; those two are therefore taken as
parameters (an opaque decoder state `S` threaded through them) rather than
re-embedded. -/

/-- A region as seen by the extraction loop: only its `match` field is
read. -/
structure ExtractRegion where
  mtch : Option RegionMatch
  deriving Repr, DecidableEq

/-- The `top_region`/`to_subblossom_matches` behaviour the extraction loop
is parameterised over.  `topRegion` reads the decoder state (`None` when
the detection event's node was already cleaned up); `toSubblossomMatches`
shatters blossoms, mutating the state and returning the produced regions. -/
structure ExtractModel (S D : Type) where
  topRegion : S → D → Option ExtractRegion
  toSubblossomMatches : S → ExtractRegion → List ExtractRegion × S

/-- Sum of the `distance` fields of a list of match edges. -/
def sumDistances (l : List CompressedEdge) : ℕ :=
  (l.map (fun e => e.distance)).sum

/-- Xor of the `obs_mask` fields of a list of match edges. -/
def xorMasks (l : List CompressedEdge) : ℕ :=
  l.foldl (fun a e => a ^^^ e.obs_mask) 0

/-- The inner loop `for m in r.to_subblossom_matches(): ...`:
`match_list.append(m.match.edge)`, `obs_mask ^= m.match.edge.obs_mask`,
`total_weight += m.match.edge.distance`; reading `.edge` off a `None`
match raises. -/
def extractInner : List ExtractRegion → List CompressedEdge → ℕ → ℕ →
    Except String (List CompressedEdge × ℕ × ℕ)
  | [], ml, tw, om => .ok (ml, tw, om)
  | m :: ms, ml, tw, om =>
    match m.mtch with
    | none => .error "AttributeError: match is None"
    | some mt =>
      extractInner ms (ml ++ [mt.edge]) (tw + mt.edge.distance)
        (om ^^^ mt.edge.obs_mask)

/-- The outer loop `for d in self.detection_events: ...` of
`extract_matching_and_reset_graph`: skip nodes whose `top_region()` is
`None`, assert the region is matched, run the inner loop over its
sub-blossom matches, thread the mutated state. -/
def extractOuter {S D : Type} (M : ExtractModel S D) :
    List D → S → List CompressedEdge → ℕ → ℕ →
    Except String (List CompressedEdge × ℕ × ℕ × S)
  | [], s, ml, tw, om => .ok (ml, tw, om, s)
  | d :: ds, s, ml, tw, om =>
    match M.topRegion s d with
    | none => extractOuter M ds s ml tw om
    | some r =>
      if r.mtch.isNone then .error "AssertionError: r.match is not None"
      else
        match extractInner (M.toSubblossomMatches s r).1 ml tw om with
        | .error e => .error e
        | .ok (ml', tw', om') =>
          extractOuter M ds (M.toSubblossomMatches s r).2 ml' tw' om'

/-- Embeds `Mwpm.extract_matching_and_reset_graph`: run the loop with empty
accumulators (`match_list = []`, `total_weight = 0`, `obs_mask = 0`). -/
def extractMatchingAndResetGraph {S D : Type} (M : ExtractModel S D)
    (detection_events : List D) (s : S) :
    Except String (List CompressedEdge × ℕ × ℕ × S) :=
  extractOuter M detection_events s [] 0 0

/-- Appending one edge keeps the two accumulators in sync with the list. -/
theorem accumulators_append (ml : List CompressedEdge) (e : CompressedEdge)
    (tw om : ℕ) (htw : tw = sumDistances ml) (hom : om = xorMasks ml) :
    tw + e.distance = sumDistances (ml ++ [e]) ∧
    om ^^^ e.obs_mask = xorMasks (ml ++ [e]) := by
  constructor
  · simp [htw, sumDistances]
  · simp [hom, xorMasks, List.foldl_append]

/-- The inner loop preserves the accumulator invariant. -/
theorem extractInner_invariant (ms : List ExtractRegion)
    (ml : List CompressedEdge) (tw om : ℕ) (ml' : List CompressedEdge)
    (tw' om' : ℕ) (h : extractInner ms ml tw om = .ok (ml', tw', om'))
    (htw : tw = sumDistances ml) (hom : om = xorMasks ml) :
    tw' = sumDistances ml' ∧ om' = xorMasks ml' := by
  induction ms generalizing ml tw om with
  | nil =>
    unfold extractInner at h
    cases h
    exact ⟨htw, hom⟩
  | cons m rest ih =>
    unfold extractInner at h
    cases hm : m.mtch with
    | none => rw [hm] at h; exact Except.noConfusion h
    | some mt =>
      rw [hm] at h
      have hp := accumulators_append ml mt.edge tw om htw hom
      exact ih _ _ _ h hp.1 hp.2

/-- The outer loop preserves the accumulator invariant. -/
theorem extractOuter_invariant {S D : Type} (M : ExtractModel S D)
    (ds : List D) (s : S) (ml : List CompressedEdge) (tw om : ℕ)
    (ml' : List CompressedEdge) (tw' om' : ℕ) (s' : S)
    (h : extractOuter M ds s ml tw om = .ok (ml', tw', om', s'))
    (htw : tw = sumDistances ml) (hom : om = xorMasks ml) :
    tw' = sumDistances ml' ∧ om' = xorMasks ml' := by
  induction ds generalizing s ml tw om with
  | nil =>
    unfold extractOuter at h
    cases h
    exact ⟨htw, hom⟩
  | cons d rest ih =>
    unfold extractOuter at h
    split at h
    · exact ih _ _ _ _ h htw hom
    next r hr =>
      split at h
      · exact Except.noConfusion h
      next hm =>
        split at h
        · exact Except.noConfusion h
        next ml1 tw1 om1 hinner =>
          have hstep := extractInner_invariant _ _ _ _ _ _ _ hinner htw hom
          exact ih _ _ _ _ h hstep.1 hstep.2

/-- C2: whenever `Mwpm.extract_matching_and_reset_graph` returns
`(match_list, total_weight, obs_mask)`, `total_weight` equals the sum of
the `distance` fields of the returned match edges and `obs_mask` equals
the xor of their `obs_mask` fields — for every behaviour of
`top_region`/`to_subblossom_matches`. -/
theorem c2_extract_accumulators_match_list {S D : Type}
    (M : ExtractModel S D) (detection_events : List D) (s : S)
    (ml : List CompressedEdge) (tw om : ℕ) (s' : S)
    (h : extractMatchingAndResetGraph M detection_events s
      = .ok (ml, tw, om, s')) :
    tw = sumDistances ml ∧ om = xorMasks ml :=
  extractOuter_invariant M detection_events s [] 0 0 ml tw om s' h rfl rfl

/-- Witness for C2: a one-detection-event model whose node owns a region
matched through edge `(0,1,mask 5,distance 3)`; extraction returns that
single edge with `total_weight = 3` and `obs_mask = 5`, and the theorem
applies with `h := rfl`. -/
theorem c2_extract_accumulators_match_list_witness :
    3 = sumDistances [⟨some 0, some 1, 5, 3⟩] ∧
    5 = xorMasks [⟨some 0, some 1, 5, 3⟩] :=
  c2_extract_accumulators_match_list
    ⟨fun _ _ => some ⟨some ⟨some 1, ⟨some 0, some 1, 5, 3⟩⟩⟩,
     fun s r => ([r], s)⟩
    [()] () [⟨some 0, some 1, 5, 3⟩] 3 5 () rfl

/-! ## `slowmatch/region_path.py`

A `RegionPath` is an ordered list of `RegionEdge`s; a `RegionEdge` pairs a
region (by identity) with the optional compressed edge to the next entry.
`reversed()` walks the edge list backwards, pairing each region with the
reversal of the preceding entry's edge and terminating with the first
region paired with `None`; it raises when the list is empty
(`self.edges[0]`) or when a needed edge is `None` (`.reversed()` on
`None`).  `split_between_regions` finds the first indices `i`, `j` of the
two given regions (raising `StopIteration` when absent), slices the
doubled list, and returns the odd-length slice together with the interior
(endpoints stripped) of the complementary slice, reversing the
complementary slice when it is the odd one. -/

/-- Embeds the `RegionEdge` dataclass of `region_path.py`. -/
structure RegionEdge where
  region : ℕ
  edge : Option CompressedEdge
  deriving Repr, DecidableEq

/-- Embeds the `RegionPath` dataclass of `region_path.py`. -/
structure RegionPath where
  edges : List RegionEdge
  deriving Repr, DecidableEq

namespace RegionPath

/-- The regions of a path, in order. -/
def regions (p : RegionPath) : List ℕ := p.edges.map (fun e => e.region)

/-- The loop body of `RegionPath.reversed`, fed the reversed edge list:
for each adjacent pair `(current, next)` of `self.edges` traversed
backwards (`current = edges[n-1-i]`, `next = edges[n-2-i]`) emit
`RegionEdge(region=current.region, edge=next.edge.reversed())`; a missing
`next.edge` raises (`None.reversed()`). -/
def revAux : List RegionEdge → Option (List RegionEdge)
  | [] => some []
  | [_] => some []
  | c :: nxt :: rest => do
    let e ← nxt.edge
    let tail ← revAux (nxt :: rest)
    pure (⟨c.region, some e.reversed⟩ :: tail)

/-- Embeds `RegionPath.reversed`: the backwards pairs followed by
`RegionEdge(region=self.edges[0].region, edge=None)`; raises on the empty
path (`IndexError`). -/
def reversed (p : RegionPath) : Option RegionPath :=
  match p.edges with
  | [] => none
  | e0 :: rest =>
    (revAux ((e0 :: rest).reverse)).map
      (fun newEdges => ⟨newEdges ++ [⟨e0.region, none⟩]⟩)

/-- The Python slice `regions2[i : j + 1 + (n if j < i else 0)]` —
`result1` of `split_between_regions` (`regions2 = regions * 2`). -/
def sliceA (l : List RegionEdge) (i j : ℕ) : List RegionEdge :=
  ((l ++ l).drop i).take (j + 1 + (if j < i then l.length else 0) - i)

/-- The Python slice `regions2[j : i + 1 + (n if i <= j else 0)]` —
`result2` of `split_between_regions`.  It coincides with `sliceA l j i`
whenever `i ≠ j` (the two conditions `i <= j` and `i < j` then agree). -/
def sliceB (l : List RegionEdge) (i j : ℕ) : List RegionEdge :=
  ((l ++ l).drop j).take (i + 1 + (if i ≤ j then l.length else 0) - j)

/-- Embeds `RegionPath.split_between_regions`: find the first indices `i`,
`j` of `start_region` and `end_region` (`next(...)` raises when absent),
slice the doubled list both ways (`sliceA`/`sliceB` above), hand back the
odd-length slice first — reversing the complementary slice when the direct
slice is even — and the interior (`[1:-1]`) of the other slice second. -/
def split_between_regions (p : RegionPath) (start_region end_region : ℕ) :
    Option (RegionPath × RegionPath) :=
  match p.edges.findIdx? (fun r => r.region = start_region),
      p.edges.findIdx? (fun r => r.region = end_region) with
  | some i, some j =>
    if (sliceA p.edges i j).length % 2 = 1 then
      some (⟨sliceA p.edges i j⟩, ⟨((sliceB p.edges i j).drop 1).dropLast⟩)
    else
      match reversed ⟨sliceB p.edges i j⟩ with
      | none => none
      | some r2 => some (r2, ⟨((sliceA p.edges i j).drop 1).dropLast⟩)
  | _, _ => none

end RegionPath

namespace RegionPath

theorem sliceB_eq_sliceA {l : List RegionEdge} {i j : ℕ} (hij : i ≠ j) :
    sliceB l i j = sliceA l j i := by
  unfold sliceA sliceB
  congr 2
  by_cases hlt : i < j
  · rw [if_pos (Nat.le_of_lt hlt), if_pos hlt]
  · rw [if_neg (fun hle => hlt (Nat.lt_of_le_of_ne hle hij)), if_neg hlt]

theorem sliceA_eq_of_le {l : List RegionEdge} {a b : ℕ} (hab : a ≤ b)
    (hb : b < l.length) : sliceA l a b = (l.drop a).take (b + 1 - a) := by
  unfold sliceA
  rw [if_neg (Nat.not_lt.mpr hab)]
  rw [List.drop_append_of_le_length (by omega)]
  rw [List.take_append_of_le_length
    (by simp only [List.length_drop]; omega)]

theorem sliceA_eq_of_gt {l : List RegionEdge} {a b : ℕ} (hba : b < a)
    (ha : a < l.length) : sliceA l a b = l.drop a ++ l.take (b + 1) := by
  unfold sliceA
  rw [if_pos hba]
  rw [List.drop_append_of_le_length (by omega)]
  rw [List.take_append_eq_append_take]
  rw [List.take_all_of_le (by simp only [List.length_drop]; omega)]
  congr 2
  simp only [List.length_drop]
  omega

theorem sliceA_length {l : List RegionEdge} {a b : ℕ} (ha : a < l.length)
    (hb : b < l.length) :
    (sliceA l a b).length = b + 1 + (if b < a then l.length else 0) - a := by
  rcases Nat.lt_or_ge b a with hba | hab
  · rw [sliceA_eq_of_gt hba ha, if_pos hba]
    simp only [List.length_append, List.length_take, List.length_drop]
    omega
  · rw [sliceA_eq_of_le hab hb, if_neg (Nat.not_lt.mpr hab)]
    simp only [List.length_take, List.length_drop]
    omega

theorem sliceA_head? {l : List RegionEdge} {a b : ℕ} (ha : a < l.length)
    (hb : b < l.length) : (sliceA l a b).head? = l[a]? := by
  rcases Nat.lt_or_ge b a with hba | hab
  · rw [sliceA_eq_of_gt hba ha]
    rw [List.head?_eq_getElem?]
    rw [List.getElem?_append_left (by simp only [List.length_drop]; omega)]
    rw [List.getElem?_drop]
    norm_num
  · rw [sliceA_eq_of_le hab hb]
    rw [List.head?_eq_getElem?]
    rw [List.getElem?_take_of_lt (by omega)]
    rw [List.getElem?_drop]
    norm_num

theorem sliceA_getLast? {l : List RegionEdge} {a b : ℕ} (ha : a < l.length)
    (hb : b < l.length) : (sliceA l a b).getLast? = l[b]? := by
  rcases Nat.lt_or_ge b a with hba | hab
  · rw [sliceA_eq_of_gt hba ha]
    rw [List.getLast?_eq_getElem?]
    have hlen : (l.drop a ++ l.take (b + 1)).length
        = (l.length - a) + (b + 1) := by
      simp only [List.length_append, List.length_take, List.length_drop]
      omega
    rw [hlen]
    rw [List.getElem?_append_right (by simp only [List.length_drop]; omega)]
    rw [List.getElem?_take_of_lt (by simp only [List.length_drop]; omega)]
    congr 1
    simp only [List.length_drop]
    omega
  · rw [sliceA_eq_of_le hab hb]
    rw [List.getLast?_eq_getElem?]
    have hlen : ((l.drop a).take (b + 1 - a)).length = b + 1 - a := by
      simp only [List.length_take, List.length_drop]
      omega
    rw [hlen]
    rw [List.getElem?_take_of_lt (by omega)]
    rw [List.getElem?_drop]
    congr 1
    omega

end RegionPath

namespace RegionPath

/-- Rotation decomposition of the two complementary slices: the direct
slice from `a` to `b` followed by the interior of the complementary slice
is exactly the cycle rotated to start at `a`. -/
theorem sliceA_concat_interior {l : List RegionEdge} {a b : ℕ}
    (ha : a < l.length) (hb : b < l.length) (hne : a ≠ b) :
    sliceA l a b ++ ((sliceA l b a).drop 1).dropLast = l.rotate a := by
  rcases Nat.lt_or_ge a b with hab | hba'
  · -- a < b
    rw [sliceA_eq_of_le (Nat.le_of_lt hab) hb]
    rw [sliceA_eq_of_gt hab hb]
    rw [List.drop_append_of_le_length (by simp only [List.length_drop]; omega)]
    rw [List.drop_drop]
    rw [List.dropLast_append_of_ne_nil _
      (by apply List.ne_nil_of_length_pos; simp only [List.length_take]; omega)]
    have htake : (l.take (a + 1)).dropLast = l.take a := by
      rw [List.take_succ, List.getElem?_eq_getElem ha]
      simp only [Option.toList_some]
      exact List.dropLast_concat
    rw [htake]
    rw [List.rotate_eq_drop_append_take (by omega)]
    rw [← List.append_assoc]
    have hdecomp := List.drop_take_append_drop l a (b + 1 - a)
    rw [show a + (b + 1 - a) = b + 1 by omega] at hdecomp
    rw [hdecomp]
  · -- b < a
    have hba : b < a := Nat.lt_of_le_of_ne hba' (Ne.symm hne)
    rw [sliceA_eq_of_gt hba ha]
    rw [sliceA_eq_of_le (Nat.le_of_lt hba) ha]
    rw [List.drop_take]
    rw [List.drop_drop]
    rw [show a + 1 - b - 1 = a - b by omega]
    have hsucc : a - b = (a - b - 1) + 1 := by omega
    have hget : (l.drop (b + 1))[a - b - 1]? = some l[a] := by
      rw [List.getElem?_drop]
      rw [show b + 1 + (a - b - 1) = a by omega]
      exact List.getElem?_eq_getElem ha
    have hdl : ((l.drop (b + 1)).take (a - b)).dropLast
        = (l.drop (b + 1)).take (a - b - 1) := by
      conv_lhs => rw [hsucc]
      rw [List.take_succ, hget]
      simp only [Option.toList_some]
      exact List.dropLast_concat
    rw [hdl]
    rw [List.rotate_eq_drop_append_take (by omega)]
    rw [List.append_assoc]
    congr 1
    rw [← List.take_add]
    congr 1
    omega

/-- When `revAux` succeeds its output's regions are the input's regions
without the last one. -/
theorem revAux_regions : ∀ (xs ys : List RegionEdge), revAux xs = some ys →
    ys.map (fun e => e.region) = (xs.map (fun e => e.region)).dropLast
  | [], ys, h => by
    simp only [revAux, Option.some_inj] at h
    simp [← h]
  | [x], ys, h => by
    simp only [revAux, Option.some_inj] at h
    simp [← h]
  | c :: nxt :: rest, ys, h => by
    unfold revAux at h
    cases he : nxt.edge with
    | none => rw [he] at h; exact Option.noConfusion h
    | some e =>
      rw [he] at h
      simp only [Option.bind_eq_bind, Option.some_bind] at h
      cases ht : revAux (nxt :: rest) with
      | none => rw [ht] at h; exact Option.noConfusion h
      | some tail =>
        rw [ht] at h
        simp only [Option.some_bind, Option.pure_def, Option.some_inj] at h
        have ih := revAux_regions (nxt :: rest) tail ht
        rw [← h]
        simp only [List.map_cons]
        rw [ih]
        simp only [List.map_cons]
        rfl

/-- When `RegionPath.reversed` succeeds, its regions are the original
regions reversed. -/
theorem reversed_regions {p q : RegionPath} (h : reversed p = some q) :
    q.edges.map (fun e => e.region)
      = (p.edges.map (fun e => e.region)).reverse := by
  unfold reversed at h
  split at h
  · exact Option.noConfusion h
  next e0 t hp =>
    rw [Option.map_eq_some'] at h
    obtain ⟨ys, hr, hq⟩ := h
    have hys := revAux_regions (e0 :: t).reverse ys hr
    rw [hp, ← hq]
    simp only [List.map_append, List.map_cons, List.map_nil]
    rw [hys]
    rw [List.map_reverse]
    simp only [List.map_cons]
    rw [List.reverse_cons]
    rw [List.dropLast_concat]

end RegionPath

namespace RegionPath

/-- Case analysis of a successful `split_between_regions` call with
distinct endpoint regions: the found indices are in range and distinct,
index the endpoint regions, and the returned pair is either the direct
slice plus interior of the complementary slice (odd direct slice) or the
reversed complementary slice plus interior of the direct slice. -/
theorem split_spec {p : RegionPath} {s e : ℕ} {a b : RegionPath}
    (hne : s ≠ e)
    (h : split_between_regions p s e = some (a, b)) :
    ∃ i j, i < p.edges.length ∧ j < p.edges.length ∧ i ≠ j ∧
      (p.edges[i]?.map (fun r => r.region)) = some s ∧
      (p.edges[j]?.map (fun r => r.region)) = some e ∧
      (((sliceA p.edges i j).length % 2 = 1 ∧
          a.edges = sliceA p.edges i j ∧
          b.edges = ((sliceA p.edges j i).drop 1).dropLast) ∨
       (¬ (sliceA p.edges i j).length % 2 = 1 ∧
          reversed ⟨sliceA p.edges j i⟩ = some a ∧
          b.edges = ((sliceA p.edges i j).drop 1).dropLast)) := by
  unfold split_between_regions at h
  split at h
  case h_2 => exact Option.noConfusion h
  next i j hfi hfj =>
    obtain ⟨hi, hpi, -⟩ := List.findIdx?_eq_some_iff_getElem.mp hfi
    obtain ⟨hj, hpj, -⟩ := List.findIdx?_eq_some_iff_getElem.mp hfj
    have hri : p.edges[i].region = s := of_decide_eq_true hpi
    have hrj : p.edges[j].region = e := of_decide_eq_true hpj
    have hij : i ≠ j := by
      intro hEq
      subst hEq
      exact hne (hri.symm.trans hrj)
    refine ⟨i, j, hi, hj, hij, ?_, ?_, ?_⟩
    · rw [List.getElem?_eq_getElem hi]
      simp [hri]
    · rw [List.getElem?_eq_getElem hj]
      simp [hrj]
    · rw [sliceB_eq_sliceA hij] at h
      split at h
      next hodd =>
        simp only [Option.some_inj, Prod.mk.injEq] at h
        obtain ⟨ha, hb⟩ := h
        exact Or.inl ⟨hodd, by rw [← ha], by rw [← hb]⟩
      next heven =>
        split at h
        · exact Option.noConfusion h
        next r2 hrev =>
          simp only [Option.some_inj, Prod.mk.injEq] at h
          obtain ⟨ha, hb⟩ := h
          exact Or.inr ⟨heven, by rw [hrev, ha], by rw [← hb]⟩

end RegionPath

/-- C3: For every RegionPath that forms an odd-length cycle and any two
distinct member regions, when `split_between_regions(start_region,
end_region)` returns, its first path has odd length and runs from
`start_region` (first entry) to `end_region` (last entry), and the second,
complementary path has even length. -/
theorem c3_split_odd_path_first (p : RegionPath) (s e : ℕ)
    (a b : RegionPath)
    (hcyc : p.edges.length % 2 = 1) (hne : s ≠ e)
    (h : p.split_between_regions s e = some (a, b)) :
    a.edges.length % 2 = 1 ∧
    (a.edges.head?.map (fun r => r.region)) = some s ∧
    (a.edges.getLast?.map (fun r => r.region)) = some e ∧
    b.edges.length % 2 = 0 := by
  obtain ⟨i, j, hi, hj, hij, hs, he, hcase⟩ := RegionPath.split_spec hne h
  have hlen_ij := RegionPath.sliceA_length hi hj
  have hlen_ji := RegionPath.sliceA_length hj hi
  rcases hcase with ⟨hodd, ha, hb⟩ | ⟨heven, hrev, hb⟩
  · refine ⟨by rw [ha]; exact hodd, ?_, ?_, ?_⟩
    · rw [ha, RegionPath.sliceA_head? hi hj]
      exact hs
    · rw [ha, RegionPath.sliceA_getLast? hi hj]
      exact he
    · rw [hb]
      simp only [List.length_dropLast, List.length_drop]
      rw [hlen_ji]
      rw [hlen_ij] at hodd
      rcases Nat.lt_or_ge i j with hlt | hge
      · rw [if_neg (by omega)] at hodd
        rw [if_pos hlt]
        omega
      · have hgt : j < i := by omega
        rw [if_pos hgt] at hodd
        rw [if_neg (by omega)]
        omega
  · have hregions := RegionPath.reversed_regions hrev
    have hlen_a : a.edges.length = (RegionPath.sliceA p.edges j i).length := by
      have := congrArg List.length hregions
      simpa using this
    have hla : a.edges.length % 2 = 1 := by
      rw [hlen_a, hlen_ji]
      rw [hlen_ij] at heven
      rcases Nat.lt_or_ge i j with hlt | hge
      · rw [if_neg (by omega)] at heven
        rw [if_pos hlt]
        omega
      · have hgt : j < i := by omega
        rw [if_pos hgt] at heven
        rw [if_neg (by omega)]
        omega
    refine ⟨hla, ?_, ?_, ?_⟩
    · have hh := congrArg List.head? hregions
      rw [List.head?_map, List.head?_reverse, List.getLast?_map] at hh
      rw [hh, RegionPath.sliceA_getLast? hj hi]
      exact hs
    · have hh := congrArg List.getLast? hregions
      rw [List.getLast?_map, List.getLast?_reverse, List.head?_map] at hh
      rw [hh, RegionPath.sliceA_head? hj hi]
      exact he
    · rw [hb]
      simp only [List.length_dropLast, List.length_drop]
      rw [hlen_ij]
      rw [hlen_ij] at heven
      rcases Nat.lt_or_ge i j with hlt | hge
      · rw [if_neg (by omega)] at heven ⊢
        omega
      · have hgt : j < i := by omega
        rw [if_pos hgt] at heven ⊢
        omega

/-- A concrete odd blossom cycle on the regions `0, 1, 2, 3, 4` with a
unit compressed edge from each entry to the next, as in the repository's
`region_path_test.py`. -/
def demoCycle5 : RegionPath :=
  ⟨[⟨0, some ⟨some 0, some 1, 0, 1⟩⟩, ⟨1, some ⟨some 1, some 2, 0, 1⟩⟩,
    ⟨2, some ⟨some 2, some 3, 0, 1⟩⟩, ⟨3, some ⟨some 3, some 4, 0, 1⟩⟩,
    ⟨4, some ⟨some 4, some 0, 0, 1⟩⟩]⟩

/-- The first path returned for `demoCycle5.split_between_regions(3, 1)`. -/
def demoSplitFst : RegionPath :=
  ⟨[⟨3, some ⟨some 3, some 2, 0, 1⟩⟩, ⟨2, some ⟨some 2, some 1, 0, 1⟩⟩, ⟨1, none⟩]⟩

/-- The second path returned for `demoCycle5.split_between_regions(3, 1)`. -/
def demoSplitSnd : RegionPath :=
  ⟨[⟨4, some ⟨some 4, some 0, 0, 1⟩⟩, ⟨0, some ⟨some 0, some 1, 0, 1⟩⟩]⟩

/-- Witness for C3 at the concrete odd cycle `[0, 1, 2, 3, 4]` (each entry
carrying a unit edge to the next) split between regions 3 and 1: the call
succeeds, the first path is odd (length 3) running 3 → 1, the second has
even length. -/
theorem c3_split_odd_path_first_witness :
    RegionPath.split_between_regions demoCycle5 3 1
        = some (demoSplitFst, demoSplitSnd) ∧
    (demoSplitFst.edges.length % 2 = 1 ∧
      (demoSplitFst.edges.head?.map (fun r => r.region)) = some 3 ∧
      (demoSplitFst.edges.getLast?.map (fun r => r.region)) = some 1 ∧
      demoSplitSnd.edges.length % 2 = 0) := by
  refine ⟨?_, ?_⟩
  · decide
  · exact c3_split_odd_path_first demoCycle5 3 1 demoSplitFst demoSplitSnd
      (by decide) (by decide) (by decide)

/-- C1 counterexample: on the odd cycle `[0, 1, 2]` (unit edges),
`split_between_regions(start_region=0, end_region=1)` returns a second
path that is empty — it contains neither endpoint region, so the two
returned paths do not each include both endpoints and do not share the two
endpoint regions. -/
theorem c1_counterexample_second_path_excludes_endpoints :
    RegionPath.split_between_regions
        ⟨[⟨0, some ⟨some 0, some 1, 0, 1⟩⟩, ⟨1, some ⟨some 1, some 2, 0, 1⟩⟩,
          ⟨2, some ⟨some 2, some 0, 0, 1⟩⟩]⟩ 0 1
      = some (⟨[⟨0, some ⟨some 0, some 2, 0, 1⟩⟩, ⟨2, some ⟨some 2, some 1, 0, 1⟩⟩,
                ⟨1, none⟩]⟩, ⟨[]⟩) ∧
    ¬ ((0 ∈ ([] : List RegionEdge).map (fun r => r.region)) ∧
       (1 ∈ ([] : List RegionEdge).map (fun r => r.region))) := by
  refine ⟨by decide, by decide⟩

/-- C1 amended: for every RegionPath forming an odd-length cycle whose
regions are pairwise distinct and any two distinct member regions, when
`split_between_regions` returns, the first path includes both endpoint
regions, the second includes neither (the two paths share no region), and
concatenating the two paths directly (there are no duplicated endpoints to
remove) yields every region of the original cycle exactly once — the cycle
up to rotation, and up to reversal when the complementary slice was the
odd one. -/
theorem c1_split_partitions_cycle (p : RegionPath) (s e : ℕ)
    (a b : RegionPath)
    (hcyc : p.edges.length % 2 = 1)
    (hnodup : (p.edges.map (fun r => r.region)).Nodup)
    (hne : s ≠ e)
    (h : p.split_between_regions s e = some (a, b)) :
    (s ∈ a.edges.map (fun r => r.region) ∧ e ∈ a.edges.map (fun r => r.region)) ∧
    (s ∉ b.edges.map (fun r => r.region) ∧ e ∉ b.edges.map (fun r => r.region)) ∧
    ((a.edges.map (fun r => r.region)) ++ (b.edges.map (fun r => r.region))).Perm
      (p.edges.map (fun r => r.region)) := by
  obtain ⟨i, j, hi, hj, hij, hs, he, hcase⟩ := RegionPath.split_spec hne h
  rcases hcase with ⟨hodd, ha, hb⟩ | ⟨heven, hrev, hb⟩
  · have hconcat := RegionPath.sliceA_concat_interior hi hj hij
    have hperm : ((a.edges.map (fun r => r.region))
          ++ (b.edges.map (fun r => r.region))).Perm
        (p.edges.map (fun r => r.region)) := by
      rw [ha, hb, ← List.map_append, hconcat]
      exact (List.rotate_perm p.edges i).map _
    have hsa : s ∈ a.edges.map (fun r => r.region) := by
      have hh : (a.edges.map (fun r => r.region)).head? = some s := by
        rw [List.head?_map, ha, RegionPath.sliceA_head? hi hj]
        exact hs
      exact List.mem_of_mem_head? (by rw [hh]; rfl)
    have hea : e ∈ a.edges.map (fun r => r.region) := by
      have hh : (a.edges.map (fun r => r.region)).getLast? = some e := by
        rw [List.getLast?_map, ha, RegionPath.sliceA_getLast? hi hj]
        exact he
      exact List.mem_of_getLast?_eq_some hh
    have hnd : ((a.edges.map (fun r => r.region))
        ++ (b.edges.map (fun r => r.region))).Nodup :=
      (hperm.nodup_iff).mpr hnodup
    obtain ⟨-, -, hdisj⟩ := List.nodup_append.mp hnd
    exact ⟨⟨hsa, hea⟩, ⟨hdisj hsa, hdisj hea⟩, hperm⟩
  · have hconcat := RegionPath.sliceA_concat_interior hj hi (Ne.symm hij)
    have haregions : a.edges.map (fun r => r.region)
        = ((RegionPath.sliceA p.edges j i).map (fun r => r.region)).reverse :=
      RegionPath.reversed_regions hrev
    have hperm : ((a.edges.map (fun r => r.region))
          ++ (b.edges.map (fun r => r.region))).Perm
        (p.edges.map (fun r => r.region)) := by
      rw [haregions, hb]
      refine List.Perm.trans ?_ ((List.rotate_perm p.edges j).map _)
      rw [← hconcat, List.map_append]
      exact (List.reverse_perm _).append_right _
    have hsa : s ∈ a.edges.map (fun r => r.region) := by
      have hh : (a.edges.map (fun r => r.region)).head? = some s := by
        rw [haregions, List.head?_reverse, List.getLast?_map,
          RegionPath.sliceA_getLast? hj hi]
        exact hs
      exact List.mem_of_mem_head? (by rw [hh]; rfl)
    have hea : e ∈ a.edges.map (fun r => r.region) := by
      have hh : (a.edges.map (fun r => r.region)).getLast? = some e := by
        rw [haregions, List.getLast?_reverse, List.head?_map,
          RegionPath.sliceA_head? hj hi]
        exact he
      exact List.mem_of_getLast?_eq_some hh
    have hnd : ((a.edges.map (fun r => r.region))
        ++ (b.edges.map (fun r => r.region))).Nodup :=
      (hperm.nodup_iff).mpr hnodup
    obtain ⟨-, -, hdisj⟩ := List.nodup_append.mp hnd
    exact ⟨⟨hsa, hea⟩, ⟨hdisj hsa, hdisj hea⟩, hperm⟩

/-- Witness for C1 amended at `demoCycle5.split_between_regions(3, 1)`:
the first path `[3, 2, 1]` holds both endpoints, the second `[4, 0]`
holds neither, and together they are a permutation of the cycle. -/
theorem c1_split_partitions_cycle_witness :
    (3 ∈ demoSplitFst.edges.map (fun r => r.region) ∧
      1 ∈ demoSplitFst.edges.map (fun r => r.region)) ∧
    (3 ∉ demoSplitSnd.edges.map (fun r => r.region) ∧
      1 ∉ demoSplitSnd.edges.map (fun r => r.region)) ∧
    ((demoSplitFst.edges.map (fun r => r.region))
      ++ (demoSplitSnd.edges.map (fun r => r.region))).Perm
        (demoCycle5.edges.map (fun r => r.region)) :=
  c1_split_partitions_cycle demoCycle5 3 1 demoSplitFst demoSplitSnd
    (by decide) (by decide) (by decide) (by decide)
